import Mathlib

set_option linter.unusedVariables false
set_option maxRecDepth 100000

/-!  A shallow embedding of the brain-sdk core, checked against its
specification.  The definitions translate, member by member, the MIDI
message decoder (`src/lib/brain-io/midi-parser.cpp` and its header), the
note stack and gate logic of the MIDI-to-CV converter
(`src/lib/brain-utils/midi-to-cv.cpp`) and the byte ring buffer
(`src/lib/brain-utils/include/brain-utils/ringbuffer.h` and its
implementation).  Bytes are modelled as `Nat` with explicit bounds where
the width matters; callback invocations are modelled as lists of emitted
events; hardware-only effects (UART, DAC voltages, GPIO) are outside the
model. -/

namespace BrainSdk

/-! ## MIDI parser: data model (`MidiParser` in midi-parser.h) -/

/-- Parser state machine states (`MidiParser::State`). -/
inductive PState
  | Idle
  | AwaitData1
  | AwaitData2
deriving DecidableEq

/-- Decoded MIDI events.  One entry per callback invocation; all callbacks
are modelled as installed. -/
inductive MidiEvent
  | noteOn (note velocity channel : Nat)
  | noteOff (note velocity channel : Nat)
  | controlChange (cc value channel : Nat)
  | pitchBend (value : Int) (channel : Nat)
  | realtime (status : Nat)
deriving DecidableEq

/-- Channel reported by a channel-voice event, `none` for real-time events. -/
def MidiEvent.eventChannel : MidiEvent → Option Nat
  | .noteOn _ _ c => some c
  | .noteOff _ _ c => some c
  | .controlChange _ _ c => some c
  | .pitchBend _ c => some c
  | .realtime _ => none

/-- Decoder state: the data members of `MidiParser` that the parsing
logic reads or writes (`state_`, `running_status_`, `current_status_`,
`data_[0]`, `data_[1]`, `expected_data_bytes_`, `channel_filter_`,
`omni_mode_`). -/
structure MidiParser where
  state : PState
  running_status : Nat
  current_status : Nat
  data0 : Nat
  data1 : Nat
  expected_data_bytes : Nat
  channel_filter : Nat
  omni_mode : Bool
deriving DecidableEq

/-- `MidiParser::kNoteOffMask`. -/
def kNoteOffMask : Nat := 0x80
/-- `MidiParser::kNoteOnMask`. -/
def kNoteOnMask : Nat := 0x90
/-- `MidiParser::kControlChangeMask`. -/
def kControlChangeMask : Nat := 0xB0
/-- `MidiParser::kPitchBendMask`. -/
def kPitchBendMask : Nat := 0xE0
/-- `MidiParser::kChannelMask`. -/
def kChannelMask : Nat := 0x0F
/-- `MidiParser::kStatusMask`. -/
def kStatusMask : Nat := 0xF0
/-- `MidiParser::kRealtimeMin`. -/
def kRealtimeMin : Nat := 0xF8
/-- `MidiParser::kSystemCommonMin`. -/
def kSystemCommonMin : Nat := 0xF0
/-- `MidiParser::kSystemCommonMax`. -/
def kSystemCommonMax : Nat := 0xF7

/-- `MidiParser::is_status_byte`: `(byte & 0x80) != 0`. -/
def is_status_byte (b : Nat) : Bool := b &&& 0x80 != 0

/-- `MidiParser::is_data_byte`: `(byte & 0x80) == 0`. -/
def is_data_byte (b : Nat) : Bool := b &&& 0x80 == 0

/-- `MidiParser::is_realtime_byte`: `byte >= kRealtimeMin`. -/
def is_realtime_byte (b : Nat) : Bool := kRealtimeMin ≤ b

/-- `MidiParser::is_system_common_byte`:
`byte >= kSystemCommonMin && byte <= kSystemCommonMax`. -/
def is_system_common_byte (b : Nat) : Bool :=
  kSystemCommonMin ≤ b && b ≤ kSystemCommonMax

/-- `MidiParser::get_status_channel`: `status & kChannelMask`. -/
def get_status_channel (s : Nat) : Nat := s &&& kChannelMask

/-- `MidiParser::get_status_type`: `status & kStatusMask`. -/
def get_status_type (s : Nat) : Nat := s &&& kStatusMask

/-- `MidiParser::get_expected_data_bytes`: 2 for note on/off, control
change and pitch bend, otherwise 0. -/
def get_expected_data_bytes (status : Nat) : Nat :=
  let t := get_status_type status
  if t = kNoteOnMask ∨ t = kNoteOffMask ∨ t = kControlChangeMask ∨ t = kPitchBendMask
  then 2 else 0

/-- `MidiParser::reset`: clears parse state, running status, current
status, both data slots and the expected count; the channel filter and
omni flag are untouched. -/
def MidiParser.reset (p : MidiParser) : MidiParser :=
  { p with state := .Idle, running_status := 0, current_status := 0,
           data0 := 0, data1 := 0, expected_data_bytes := 0 }

/-- `MidiParser::set_channel`: clamps the requested channel to 1..16. -/
def set_channel_clamped (ch : Nat) : Nat :=
  if ch < 1 then 1 else if 16 < ch then 16 else ch

/-- The `MidiParser` constructor: stores the (clamped) channel filter and
the omni flag and resets all parse state. -/
def mkParser (channel : Nat) (omni : Bool) : MidiParser :=
  { state := .Idle, running_status := 0, current_status := 0, data0 := 0,
    data1 := 0, expected_data_bytes := 0,
    channel_filter := set_channel_clamped channel, omni_mode := omni }

/-- `MidiParser::should_process_channel`: omni accepts everything,
otherwise the 0-based message channel plus one must equal the filter. -/
def MidiParser.should_process_channel (p : MidiParser) (messageChannel : Nat) : Bool :=
  if p.omni_mode then true else (messageChannel + 1) == p.channel_filter

/-- `MidiParser::process_message`: dispatch of a completed message.  The
switch over the status type is rendered as an if-chain; a note-on with
velocity 0 is delivered through the note-off callback; pitch bend
combines the two 7-bit data bytes and subtracts 8192. -/
def MidiParser.process_message (p : MidiParser) : List MidiEvent :=
  let status_type := get_status_type p.current_status
  let message_channel := get_status_channel p.current_status
  if !p.should_process_channel message_channel then []
  else
    let callback_channel := message_channel + 1
    if status_type = kNoteOnMask then
      if p.data1 = 0 then [.noteOff p.data0 p.data1 callback_channel]
      else [.noteOn p.data0 p.data1 callback_channel]
    else if status_type = kNoteOffMask then
      [.noteOff p.data0 p.data1 callback_channel]
    else if status_type = kControlChangeMask then
      [.controlChange p.data0 p.data1 callback_channel]
    else if status_type = kPitchBendMask then
      let bend_value := (p.data1 <<< 7) ||| p.data0
      let signed_bend : Int := (bend_value : Int) - 8192
      [.pitchBend signed_bend callback_channel]
    else []

/-- `MidiParser::parse`: feed one byte through the state machine.
Returns the new state and the list of callback invocations (empty or a
single event). -/
def MidiParser.parse (p : MidiParser) (byte : Nat) : MidiParser × List MidiEvent :=
  if is_realtime_byte byte then
    (p, [.realtime byte])
  else if is_system_common_byte byte then
    (p.reset, [])
  else if is_status_byte byte then
    let p := { p with current_status := byte, running_status := byte,
                      expected_data_bytes := get_expected_data_bytes byte }
    if p.expected_data_bytes = 0 then
      ({ p with state := .Idle }, p.process_message)
    else
      ({ p with state := .AwaitData1 }, [])
  else if is_data_byte byte then
    match p.state with
    | .Idle =>
      if p.running_status ≠ 0 then
        let p := { p with current_status := p.running_status,
                          expected_data_bytes := get_expected_data_bytes p.running_status,
                          data0 := byte }
        if p.expected_data_bytes = 1 then
          ({ p with state := .Idle }, p.process_message)
        else
          ({ p with state := .AwaitData2 }, [])
      else (p, [])
    | .AwaitData1 =>
      let p := { p with data0 := byte }
      if p.expected_data_bytes = 1 then
        ({ p with state := .Idle }, p.process_message)
      else
        ({ p with state := .AwaitData2 }, [])
    | .AwaitData2 =>
      let p := { p with data1 := byte }
      ({ p with state := .Idle }, p.process_message)
  else
    (p.reset, [])

/-- Feed a byte sequence through the parser, concatenating the emitted
events in order. -/
def MidiParser.parseBytes (p : MidiParser) (bs : List Nat) : MidiParser × List MidiEvent :=
  match bs with
  | [] => (p, [])
  | b :: rest =>
    let r1 := p.parse b
    let r2 := r1.1.parseBytes rest
    (r2.1, r1.2 ++ r2.2)

/-- States related by the observational-equivalence invariant used for the
running-status-free Idle state: either identical, or both Idle with no
running status, or equal on every field a future dispatch can read before
overwriting it.  Configuration (filter, omni) always agrees. -/
def Bisim (p q : MidiParser) : Prop :=
  p.channel_filter = q.channel_filter ∧ p.omni_mode = q.omni_mode ∧
  (p = q ∨
   (p.state = .Idle ∧ q.state = .Idle ∧ p.running_status = 0 ∧ q.running_status = 0) ∨
   (p.state = q.state ∧ p.running_status = q.running_status ∧
    p.current_status = q.current_status ∧
    p.expected_data_bytes = q.expected_data_bytes ∧
    p.expected_data_bytes ≠ 1 ∧
    (p.state = .AwaitData2 → p.data0 = q.data0)))

/-! ## Ring buffer: data model (`brain::utils::RingBuffer`) -/

/-- The ring buffer.  The C++ object holds a pointer to caller-owned
storage; here the storage travels inside the structure as a list. -/
structure RingBuffer where
  buffer_size : Nat
  data_buffer : List Nat
  read_index : Nat
  write_index : Nat
deriving DecidableEq

/-- `RingBuffer::init`: store the backing buffer and size, zero both
indices. -/
def RingBuffer.init (data_buffer : List Nat) (buffer_size : Nat) : RingBuffer :=
  { buffer_size := buffer_size, data_buffer := data_buffer,
    read_index := 0, write_index := 0 }

/-- `RingBuffer::is_empty`: `read_index_ == write_index_`. -/
def RingBuffer.is_empty (rb : RingBuffer) : Bool :=
  rb.read_index == rb.write_index

/-- `RingBuffer::is_full`: `((write_index_ + 1) % buffer_size_) == read_index_`. -/
def RingBuffer.is_full (rb : RingBuffer) : Bool :=
  (rb.write_index + 1) % rb.buffer_size == rb.read_index

/-- `RingBuffer::write_byte`: store at the write index and advance it
(wrapping at `buffer_size`) unless full; returns whether the byte was
accepted. -/
def RingBuffer.write_byte (rb : RingBuffer) (data : Nat) : Bool × RingBuffer :=
  if !rb.is_full then
    let db := rb.data_buffer.set rb.write_index data
    let w := rb.write_index + 1
    (true, { rb with data_buffer := db,
                     write_index := if rb.buffer_size ≤ w then 0 else w })
  else (false, rb)

/-- `RingBuffer::read_byte`: read at the read index and advance it
(wrapping at `buffer_size`) unless empty; `none` models returning false
without writing the out-parameter. -/
def RingBuffer.read_byte (rb : RingBuffer) : Option Nat × RingBuffer :=
  if !rb.is_empty then
    let v := rb.data_buffer.getD rb.read_index 0
    let r := rb.read_index + 1
    (some v, { rb with read_index := if rb.buffer_size ≤ r then 0 else r })
  else (none, rb)

/-- Number of stored bytes: distance from read to write index, modulo the
buffer size. -/
def RingBuffer.count (rb : RingBuffer) : Nat :=
  (rb.write_index + rb.buffer_size - rb.read_index) % rb.buffer_size

/-- The stored bytes in FIFO order, starting at the read index. -/
def RingBuffer.queueOf (rb : RingBuffer) : List Nat :=
  (List.range rb.count).map
    (fun i => rb.data_buffer.getD ((rb.read_index + i) % rb.buffer_size) 0)

/-- Structural wellformedness: positive size, in-range indices, storage of
the declared length.  Established by `init` and preserved by every
operation. -/
def RingBuffer.WF (rb : RingBuffer) : Prop :=
  0 < rb.buffer_size ∧ rb.read_index < rb.buffer_size ∧
  rb.write_index < rb.buffer_size ∧ rb.data_buffer.length = rb.buffer_size

/-- Specification-level bounded FIFO push (capacity `cap` usable slots):
append if there is room, otherwise drop the byte and report failure. -/
def specPush (cap : Nat) (q : List Nat) (b : Nat) : Bool × List Nat :=
  if q.length < cap then (true, q ++ [b]) else (false, q)

/-- Specification-level FIFO pop: remove and return the oldest element. -/
def specPop (q : List Nat) : Option Nat × List Nat :=
  match q with
  | [] => (none, [])
  | x :: xs => (some x, xs)

/-! ## MIDI-to-CV converter: note stack, latch and gate
(`brain::utils::MidiToCV`) -/

/-- A `NoteVelocity` entry: note number and velocity. -/
abbrev NV := Nat × Nat

/-- The `MidiToCV` members that the note handling reads or writes:
`note_stack_`, `current_stack_size_`, `last_note_`, `gate_on_`,
`cv_enabled_`.  DAC voltages, the mode and user callbacks do not
influence this state and are outside the model. -/
structure MidiToCV where
  note_stack : List NV
  current_stack_size : Nat
  last_note : NV
  gate_on : Bool
  cv_enabled : Bool
deriving DecidableEq

/-- `MidiToCV::kNoteStackSize`. -/
def kNoteStackSize : Nat := 25

/-- `MidiToCV::kZeroCVMidiNote` (0V CV is mapped to C1). -/
def kZeroCVMidiNote : Nat := 24

/-- The scan loop of `MidiToCV::find_note`: return the index of the first
entry holding `note`; stop with -1 at the first sentinel (255) entry. -/
def find_note_go : List NV → Nat → Nat → Int
  | [], _, _ => -1
  | nv :: rest, note, i =>
    if nv.1 = note then (i : Int)
    else if nv.1 = 255 then -1
    else find_note_go rest note (i + 1)

/-- `MidiToCV::find_note`: -1 if the note cannot be found. -/
def MidiToCV.find_note (s : MidiToCV) (note : Nat) : Int :=
  find_note_go s.note_stack note 0

/-- `MidiToCV::push_note`: no-op if the note is already present,
otherwise append at the current size when below capacity. -/
def MidiToCV.push_note (s : MidiToCV) (note velocity : Nat) : MidiToCV :=
  if s.find_note note ≠ -1 then s
  else if s.current_stack_size < kNoteStackSize then
    { s with note_stack := s.note_stack.set s.current_stack_size (note, velocity),
             current_stack_size := s.current_stack_size + 1 }
  else s

/-- The compaction loop of `MidiToCV::pop_note`, iteration-counted:
`stop - i` iterations of `stack[i] = stack[i+1]; i++`. -/
def shift_go_aux (fuel : Nat) (stack : List NV) (i : Nat) : List NV :=
  match fuel with
  | 0 => stack
  | f + 1 => shift_go_aux f (stack.set i (stack.getD (i + 1) (255, 0))) (i + 1)

/-- The compaction loop of `MidiToCV::pop_note`:
`for (i = idx; i < stop; i++) stack[i] = stack[i+1]`. -/
def shift_go (stack : List NV) (i stop : Nat) : List NV :=
  shift_go_aux (stop - i) stack i

/-- `MidiToCV::pop_note`: locate the note, shift the tail of the stack
down over it, clear the vacated top slot to the sentinel and decrement
the size.  (The C++ loop bound `current_stack_size_ - 1` relies on the
size being at least 1, which holds whenever a note was found in a
reachable state.) -/
def MidiToCV.pop_note (s : MidiToCV) (note : Nat) : MidiToCV :=
  let note_index := s.find_note note
  if note_index = -1 then s
  else
    let st := shift_go s.note_stack note_index.toNat (s.current_stack_size - 1)
    { s with note_stack := st.set (s.current_stack_size - 1) (255, 0),
             current_stack_size := s.current_stack_size - 1 }

/-- The latch update of `MidiToCV::set_cv`: while the stack is non-empty,
the top entry is played and recorded in `last_note_`; when it is empty the
previously latched `last_note_` keeps playing and nothing is written.
(The voltage computation itself drives the DAC and is outside the
model.) -/
def MidiToCV.set_cv (s : MidiToCV) : MidiToCV :=
  if 0 < s.current_stack_size then
    { s with last_note := s.note_stack.getD (s.current_stack_size - 1) (255, 0) }
  else s

/-- `MidiToCV::reset_note_stack`: zero the size and fill every slot with
the sentinel 255.  `last_note_` is not touched. -/
def MidiToCV.reset_note_stack (s : MidiToCV) : MidiToCV :=
  { s with current_stack_size := 0,
           note_stack := List.replicate kNoteStackSize (255, 0) }

/-- The note whose voltage `set_cv` outputs: the top of the stack while
non-empty, otherwise the latched `last_note_`. -/
def MidiToCV.sounding_note (s : MidiToCV) : Nat :=
  if 0 < s.current_stack_size then
    (s.note_stack.getD (s.current_stack_size - 1) (255, 0)).1
  else s.last_note.1

/-- Number of currently held notes (`current_stack_size_`). -/
def MidiToCV.held_count (s : MidiToCV) : Nat := s.current_stack_size

/-- `MidiToCV::note_off`: pop, recompute CV, and drop the gate only when
the stack has become empty. -/
def MidiToCV.note_off (s : MidiToCV) (note velocity : Nat) : MidiToCV :=
  let s1 := s.pop_note note
  let s2 := if s1.cv_enabled then s1.set_cv else s1
  if s2.current_stack_size = 0 then { s2 with gate_on := false } else s2

/-- `MidiToCV::note_on`: velocity 0 is handled as note-off; otherwise
push, recompute CV, and raise the gate. -/
def MidiToCV.note_on (s : MidiToCV) (note velocity : Nat) : MidiToCV :=
  if velocity = 0 then s.note_off note velocity
  else
    let s1 := s.push_note note velocity
    let s2 := if s1.cv_enabled then s1.set_cv else s1
    { s2 with gate_on := true }

/-- The note-handling state after `MidiToCV::init`: stack reset,
`last_note_` at the zero-CV default, gate low, CV enabled. -/
def initMidiToCV : MidiToCV :=
  { note_stack := List.replicate kNoteStackSize (255, 0), current_stack_size := 0,
    last_note := (kZeroCVMidiNote, 0), gate_on := false, cv_enabled := true }

/-- A note-on or note-off event delivered to the converter. -/
inductive NoteEv
  | noteOn (note velocity : Nat)
  | noteOff (note velocity : Nat)
deriving DecidableEq

/-- The note number of an event. -/
def NoteEv.evNote : NoteEv → Nat
  | .noteOn n _ => n
  | .noteOff n _ => n

/-- Apply one event to the converter state. -/
def stepEv (s : MidiToCV) (e : NoteEv) : MidiToCV :=
  match e with
  | .noteOn n v => s.note_on n v
  | .noteOff n v => s.note_off n v

/-- Run a sequence of events from the initialized converter. -/
def runEvents (es : List NoteEv) : MidiToCV := es.foldl stepEv initMidiToCV

/-- Specification-level tracker (the spec's NotePriorityTracker sequence
of held notes): remove the first entry holding the note, compacting while
preserving order. -/
def specNoteOff (q : List NV) (n : Nat) : List NV :=
  match List.findIdx? (fun nv => nv.1 == n) q with
  | some j => q.eraseIdx j
  | none => q

/-- Specification-level tracker push: append a fresh note at the end when
below capacity, idempotent on duplicates, dropped at capacity. -/
def pushSpec (q : List NV) (n v : Nat) : List NV :=
  if n ∈ q.map Prod.fst then q
  else if q.length < kNoteStackSize then q ++ [(n, v)]
  else q

/-- Specification-level tracker note-on; velocity 0 acts as note-off. -/
def specNoteOn (q : List NV) (n v : Nat) : List NV :=
  if v = 0 then specNoteOff q n else pushSpec q n v

/-- Specification-level tracker step. -/
def specStep (q : List NV) (e : NoteEv) : List NV :=
  match e with
  | .noteOn n v => specNoteOn q n v
  | .noteOff n _ => specNoteOff q n

/-- Specification-level held sequence after a run from empty. -/
def heldSpec (es : List NoteEv) : List NV := es.foldl specStep []

/-- Structural coupling between the converter state and the
specification-level held sequence: the stack is the held sequence padded
with sentinels, sizes agree, and held notes are valid and distinct. -/
def TrackerCore (s : MidiToCV) (q : List NV) : Prop :=
  s.note_stack = q ++ List.replicate (kNoteStackSize - q.length) (255, 0) ∧
  s.current_stack_size = q.length ∧
  q.length ≤ kNoteStackSize ∧
  (∀ nv ∈ q, nv.1 ≤ 127) ∧
  (q.map Prod.fst).Nodup

/-- Full coupling invariant: the structural part, the gate tracking
non-emptiness, CV enabled, and while notes are held `last_note_` being
the most recently played top of stack. -/
def TrackerInv (s : MidiToCV) (q : List NV) : Prop :=
  TrackerCore s q ∧
  s.gate_on = decide (0 < q.length) ∧
  s.cv_enabled = true ∧
  (q ≠ [] → s.last_note = q.getD (q.length - 1) (255, 0))

/-- All events carry MIDI note numbers (0..127). -/
def wfEvents (es : List NoteEv) : Prop := ∀ e ∈ es, e.evNote ≤ 127

/-! ## Theorems: byte classification -/

/-- Bytes below 0x80 are data bytes, not status bytes. -/
theorem data_byte_lt (b : Nat) (h : b < 0x80) :
    is_data_byte b = true ∧ is_status_byte b = false := by
  have key : ∀ t, t < 0x80 → t &&& 0x80 = 0 := by decide
  simp [is_data_byte, is_status_byte, key b h]

/-- Bytes in 0x80..0xEF are status bytes. -/
theorem status_byte_ge (b : Nat) (h1 : 0x80 ≤ b) (h2 : b < 0xF0) :
    is_status_byte b = true := by
  have key : ∀ t, t < 0xF0 → 0x80 ≤ t → t &&& 0x80 ≠ 0 := by decide
  simp [is_status_byte, key b h2 h1]

/-- Bytes below 0xF8 are not real-time. -/
theorem not_realtime_lt (b : Nat) (h : b < 0xF8) : is_realtime_byte b = false := by
  simp [is_realtime_byte, kRealtimeMin]; omega

/-- Bytes below 0xF0 are not system common. -/
theorem not_syscommon_lt (b : Nat) (h : b < 0xF0) : is_system_common_byte b = false := by
  simp [is_system_common_byte, kSystemCommonMin, kSystemCommonMax]; omega

/-- The expected-data-byte count is never 1. -/
theorem get_expected_ne_one (s : Nat) : get_expected_data_bytes s ≠ 1 := by
  unfold get_expected_data_bytes
  simp only
  split <;> omega

/-- The expected-data-byte count is 0 or 2. -/
theorem get_expected_cases (s : Nat) :
    get_expected_data_bytes s = 0 ∨ get_expected_data_bytes s = 2 := by
  unfold get_expected_data_bytes
  simp only
  split <;> simp

/-- A message whose status type expects no data bytes dispatches no
callback: the switch in `process_message` has no case for it. -/
theorem process_message_of_exp0 (q : MidiParser)
    (h : get_expected_data_bytes q.current_status = 0) : q.process_message = [] := by
  unfold get_expected_data_bytes at h
  simp only at h
  split at h
  · omega
  · rename_i hnot
    push_neg at hnot
    unfold MidiParser.process_message
    simp [hnot.1, hnot.2.1, hnot.2.2.1, hnot.2.2.2]

/-! ## Theorems: one-byte step lemmas for `MidiParser.parse` -/

/-- Real-time bytes take the first branch of `parse`. -/
theorem parse_realtime (p : MidiParser) (b : Nat) (h : 0xF8 ≤ b) :
    p.parse b = (p, [.realtime b]) := by
  unfold MidiParser.parse
  simp [is_realtime_byte, kRealtimeMin, h]

/-- System-common bytes reset the parser. -/
theorem parse_syscommon (p : MidiParser) (b : Nat) (h1 : 0xF0 ≤ b) (h2 : b ≤ 0xF7) :
    p.parse b = (p.reset, []) := by
  have hrt : is_realtime_byte b = false := not_realtime_lt b (by omega)
  have hsc : is_system_common_byte b = true := by
    simp [is_system_common_byte, kSystemCommonMin, kSystemCommonMax]; omega
  unfold MidiParser.parse
  simp [hrt, hsc]

/-- A status byte expecting no data bytes dispatches immediately (to no
callback) and returns to Idle with the running status updated. -/
theorem parse_status_exp0 (p : MidiParser) (b : Nat) (h1 : 0x80 ≤ b) (h2 : b < 0xF0)
    (hexp : get_expected_data_bytes b = 0) :
    p.parse b = ({ p with current_status := b, running_status := b,
                          expected_data_bytes := get_expected_data_bytes b,
                          state := .Idle }, []) := by
  have hrt : is_realtime_byte b = false := not_realtime_lt b (by omega)
  have hsc : is_system_common_byte b = false := not_syscommon_lt b h2
  have hstat : is_status_byte b = true := status_byte_ge b h1 h2
  unfold MidiParser.parse
  simp only [hrt, hsc, hstat, Bool.false_eq_true, if_false, if_true, hexp, ite_true]
  refine Prod.ext rfl ?_
  exact process_message_of_exp0 _ (by simpa using hexp)

/-- A status byte expecting two data bytes records itself and moves to
AwaitData1 without dispatching. -/
theorem parse_status_exp2 (p : MidiParser) (b : Nat) (h1 : 0x80 ≤ b) (h2 : b < 0xF0)
    (hexp : get_expected_data_bytes b = 2) :
    p.parse b = ({ p with current_status := b, running_status := b,
                          expected_data_bytes := get_expected_data_bytes b,
                          state := .AwaitData1 }, []) := by
  have hrt : is_realtime_byte b = false := not_realtime_lt b (by omega)
  have hsc : is_system_common_byte b = false := not_syscommon_lt b h2
  have hstat : is_status_byte b = true := status_byte_ge b h1 h2
  unfold MidiParser.parse
  simp only [hrt, hsc, hstat, Bool.false_eq_true, if_false, if_true, hexp]
  norm_num

/-- A data byte in Idle with no running status is dropped. -/
theorem parse_data_idle_rs0 (p : MidiParser) (b : Nat) (hb : b < 0x80)
    (hst : p.state = .Idle) (hrs : p.running_status = 0) :
    p.parse b = (p, []) := by
  have hrt : is_realtime_byte b = false := not_realtime_lt b (by omega)
  have hsc : is_system_common_byte b = false := not_syscommon_lt b (by omega)
  have hd := data_byte_lt b hb
  unfold MidiParser.parse
  simp [hrt, hsc, hd.1, hd.2, hst, hrs]

/-- A data byte in Idle with a running status re-arms the last status and
stores the byte as first data byte; since the expected count is never 1
the parser always proceeds to AwaitData2. -/
theorem parse_data_idle_rs (p : MidiParser) (b : Nat) (hb : b < 0x80)
    (hst : p.state = .Idle) (hrs : p.running_status ≠ 0) :
    p.parse b = ({ p with current_status := p.running_status,
                          expected_data_bytes := get_expected_data_bytes p.running_status,
                          data0 := b, state := .AwaitData2 }, []) := by
  have hrt : is_realtime_byte b = false := not_realtime_lt b (by omega)
  have hsc : is_system_common_byte b = false := not_syscommon_lt b (by omega)
  have hd := data_byte_lt b hb
  unfold MidiParser.parse
  simp [hrt, hsc, hd.1, hd.2, hst, hrs, get_expected_ne_one]

/-- A data byte in AwaitData1 (expected count not 1) fills the first data
slot and moves to AwaitData2. -/
theorem parse_data_await1 (p : MidiParser) (b : Nat) (hb : b < 0x80)
    (hst : p.state = .AwaitData1) (hexp : p.expected_data_bytes ≠ 1) :
    p.parse b = ({ p with data0 := b, state := .AwaitData2 }, []) := by
  have hrt : is_realtime_byte b = false := not_realtime_lt b (by omega)
  have hsc : is_system_common_byte b = false := not_syscommon_lt b (by omega)
  have hd := data_byte_lt b hb
  unfold MidiParser.parse
  simp [hrt, hsc, hd.1, hd.2, hst, hexp]

/-- A data byte in AwaitData2 fills the second data slot, dispatches the
completed message and returns to Idle. -/
theorem parse_data_await2 (p : MidiParser) (b : Nat) (hb : b < 0x80)
    (hst : p.state = .AwaitData2) :
    p.parse b = ({ p with data1 := b, state := .Idle },
                 MidiParser.process_message { p with data1 := b }) := by
  have hrt : is_realtime_byte b = false := not_realtime_lt b (by omega)
  have hsc : is_system_common_byte b = false := not_syscommon_lt b (by omega)
  have hd := data_byte_lt b hb
  unfold MidiParser.parse
  simp [hrt, hsc, hd.1, hd.2, hst]

/-! ## Claim theorems for the MIDI parser -/

/-- Claim C1: feeding `[0x90, 60, 100, 62, 90]` to a freshly reset decoder
that accepts channel 1 invokes the note-on callback exactly twice, with
(60, 100, 1) and then (62, 90, 1); and, in general, a data byte arriving
in Idle with a running status established (a channel-voice status) is
decoded exactly as if the last status byte had been repeated before it. -/
theorem C1_running_status :
    ((mkParser 1 false).parseBytes [0x90, 60, 100, 62, 90]).2 =
      [.noteOn 60 100 1, .noteOn 62 90 1] ∧
    ∀ p : MidiParser, ∀ b : Nat, p.state = .Idle → 0x80 ≤ p.running_status →
      p.running_status < 0xF0 → b < 0x80 →
      p.parse b = p.parseBytes [p.running_status, b] := by
  constructor
  · decide
  · intro p b hst hrs1 hrs2 hb
    have hrs0 : p.running_status ≠ 0 := by omega
    rw [parse_data_idle_rs p b hb hst hrs0]
    by_cases hexp : get_expected_data_bytes p.running_status = 0
    · rw [MidiParser.parseBytes, parse_status_exp0 p p.running_status hrs1 hrs2 hexp]
      simp only [MidiParser.parseBytes]
      rw [parse_data_idle_rs _ b hb rfl (by simpa using hrs0)]
      simp [MidiParser.parseBytes]
    · have hexp2 : get_expected_data_bytes p.running_status = 2 :=
        (get_expected_cases p.running_status).resolve_left hexp
      rw [MidiParser.parseBytes, parse_status_exp2 p p.running_status hrs1 hrs2 hexp2]
      simp only [MidiParser.parseBytes]
      rw [parse_data_await1 _ b hb rfl (by simp [hexp2])]
      simp [MidiParser.parseBytes, hexp2]

/-- Witness for claim C1 at a concrete parser state and byte. -/
theorem C1_running_status_witness :
    let p : MidiParser :=
      { state := .Idle, running_status := 0x90, current_status := 0x90,
        data0 := 1, data1 := 2, expected_data_bytes := 2,
        channel_filter := 1, omni_mode := false }
    p.parse 60 = p.parseBytes [p.running_status, 60] :=
  C1_running_status.2 _ 60 rfl (by decide) (by decide) (by decide)

/-- Claim C5: a real-time byte (0xF8..0xFF) fed in any decoder state
invokes only the real-time callback with that byte and leaves every piece
of decoder state unchanged. -/
theorem C5_realtime_transparent (p : MidiParser) (b : Nat)
    (h1 : 0xF8 ≤ b) (h2 : b ≤ 0xFF) :
    p.parse b = (p, [.realtime b]) :=
  parse_realtime p b h1

/-- Witness for claim C5: a clock byte in the middle of a partial message. -/
theorem C5_realtime_transparent_witness :
    let p : MidiParser :=
      { state := .AwaitData1, running_status := 0x90, current_status := 0x90,
        data0 := 7, data1 := 9, expected_data_bytes := 2,
        channel_filter := 3, omni_mode := false }
    p.parse 0xF8 = (p, [.realtime 0xF8]) :=
  C5_realtime_transparent _ 0xF8 (by decide) (by decide)

/-- A status type with two expected data bytes is one of the four
supported channel-voice types. -/
theorem exp2_status_type (s : Nat) (h : get_expected_data_bytes s = 2) :
    get_status_type s = kNoteOnMask ∨ get_status_type s = kNoteOffMask ∨
    get_status_type s = kControlChangeMask ∨ get_status_type s = kPitchBendMask := by
  unfold get_expected_data_bytes at h
  simp only at h
  split at h
  · assumption
  · omega

/-- Running a complete two-data-byte channel-voice message from any
decoder state: the final state is fully determined by the three bytes,
and the emitted events are those of `process_message` on it. -/
theorem parse_cv_message (p : MidiParser) (s d1 d2 : Nat)
    (hs1 : 0x80 ≤ s) (hs2 : s < 0xF0) (hexp : get_expected_data_bytes s = 2)
    (hd1 : d1 < 0x80) (hd2 : d2 < 0x80) :
    p.parseBytes [s, d1, d2] =
      ({ p with current_status := s, running_status := s,
                expected_data_bytes := get_expected_data_bytes s,
                data0 := d1, data1 := d2, state := .Idle },
       MidiParser.process_message
         { p with current_status := s, running_status := s,
                  expected_data_bytes := get_expected_data_bytes s,
                  data0 := d1, data1 := d2, state := .AwaitData2 }) := by
  have h1 := parse_status_exp2 p s hs1 hs2 hexp
  simp only [MidiParser.parseBytes, h1]
  rw [parse_data_await1 _ d1 hd1 rfl (by simp [hexp])]
  simp only [MidiParser.parseBytes]
  rw [parse_data_await2 _ d2 hd2 rfl]
  simp only [List.append_nil, List.nil_append]

/-- Claim C2: for every fully parsed channel-voice message, a non-matching
channel (non-omni) suppresses the callback, a matching channel or omni
delivers exactly one callback reporting the embedded channel plus one, and
the decoder state after the message does not depend on the filter outcome. -/
theorem C2_channel_filter (p : MidiParser) (s d1 d2 : Nat)
    (hs1 : 0x80 ≤ s) (hs2 : s < 0xF0)
    (hexp : get_expected_data_bytes s = 2) (hd1 : d1 < 0x80) (hd2 : d2 < 0x80) :
    ((p.omni_mode = false ∧ get_status_channel s + 1 ≠ p.channel_filter) →
        (p.parseBytes [s, d1, d2]).2 = []) ∧
    ((p.omni_mode = true ∨ get_status_channel s + 1 = p.channel_filter) →
        (p.parseBytes [s, d1, d2]).2.length = 1 ∧
        ∀ e ∈ (p.parseBytes [s, d1, d2]).2,
          e.eventChannel = some (get_status_channel s + 1)) ∧
    ((p.parseBytes [s, d1, d2]).1.state = .Idle ∧
     (p.parseBytes [s, d1, d2]).1.running_status = s ∧
     (p.parseBytes [s, d1, d2]).1.current_status = s ∧
     (p.parseBytes [s, d1, d2]).1.data0 = d1 ∧
     (p.parseBytes [s, d1, d2]).1.data1 = d2 ∧
     (p.parseBytes [s, d1, d2]).1.expected_data_bytes = 2 ∧
     (p.parseBytes [s, d1, d2]).1.channel_filter = p.channel_filter ∧
     (p.parseBytes [s, d1, d2]).1.omni_mode = p.omni_mode) := by
  rw [parse_cv_message p s d1 d2 hs1 hs2 hexp hd1 hd2]
  refine ⟨?_, ?_, rfl, rfl, rfl, rfl, rfl, by simpa using hexp, rfl, rfl⟩
  · rintro ⟨ho, hc⟩
    simp [MidiParser.process_message, MidiParser.should_process_channel, ho, hc]
  · intro hacc
    rcases hacc with h | h <;>
      rcases exp2_status_type s hexp with ht | ht | ht | ht <;>
      by_cases hz : d2 = 0 <;>
      simp [MidiParser.process_message, MidiParser.should_process_channel, h, ht, hz,
        kNoteOnMask, kNoteOffMask, kControlChangeMask, kPitchBendMask,
        MidiEvent.eventChannel]

/-- Witness for claim C2: a channel-3 note-on against a channel-5 filter
is fully parsed but not delivered. -/
theorem C2_channel_filter_witness :
    ((mkParser 5 false).parseBytes [0x92, 10, 20]).2 = [] :=
  (C2_channel_filter (mkParser 5 false) 0x92 10 20 (by decide) (by decide)
    (by decide) (by decide) (by decide)).1 ⟨rfl, by decide⟩

/-- Claim C6: a complete pitch-bend message with data bytes d1 (low) and
d2 (high) on an accepted channel delivers the signed value
`((d2 <<< 7) ||| d1) - 8192`, which lies in [-8192, 8191]. -/
theorem C6_pitch_bend (p : MidiParser) (c d1 d2 : Nat) (hc : c < 16)
    (hd1 : d1 < 0x80) (hd2 : d2 < 0x80)
    (hacc : p.omni_mode = true ∨ c + 1 = p.channel_filter) :
    (p.parseBytes [0xE0 ||| c, d1, d2]).2 =
      [.pitchBend ((((d2 <<< 7) ||| d1 : Nat) : Int) - 8192) (c + 1)] ∧
    -8192 ≤ (((d2 <<< 7) ||| d1 : Nat) : Int) - 8192 ∧
    (((d2 <<< 7) ||| d1 : Nat) : Int) - 8192 ≤ 8191 := by
  have hor : (0xE0 ||| c : Nat) = 0xE0 + c := by
    have key : ∀ t, t < 16 → (0xE0 ||| t : Nat) = 0xE0 + t := by decide
    exact key c hc
  have hty : get_status_type (0xE0 + c) = kPitchBendMask := by
    have key : ∀ t, t < 16 → get_status_type (0xE0 + t) = kPitchBendMask := by decide
    exact key c hc
  have hch : get_status_channel (0xE0 + c) = c := by
    have key : ∀ t, t < 16 → get_status_channel (0xE0 + t) = t := by decide
    exact key c hc
  have hexp : get_expected_data_bytes (0xE0 + c) = 2 := by
    have key : ∀ t, t < 16 → get_expected_data_bytes (0xE0 + t) = 2 := by decide
    exact key c hc
  have hbound : ((d2 <<< 7) ||| d1 : Nat) ≤ 16383 := by
    have key : ∀ a, a < 128 → ∀ b, b < 128 → ((a <<< 7) ||| b : Nat) ≤ 16383 := by decide
    exact key d2 hd2 d1 hd1
  rw [hor, parse_cv_message p (0xE0 + c) d1 d2 (by omega) (by omega) hexp hd1 hd2]
  refine ⟨?_, by omega, ?_⟩
  · rcases hacc with h | h <;>
      simp [MidiParser.process_message, MidiParser.should_process_channel, h, hty, hch,
        kNoteOnMask, kNoteOffMask, kControlChangeMask, kPitchBendMask]
  · omega

/-- Witness for claim C6: the three pinned byte sequences decode to
center, maximum and minimum bend. -/
theorem C6_pitch_bend_witness :
    ((mkParser 1 false).parseBytes [0xE0 ||| 0, 0x00, 0x40]).2 = [.pitchBend 0 1] ∧
    ((mkParser 1 false).parseBytes [0xE0 ||| 0, 0x7F, 0x7F]).2 = [.pitchBend 8191 1] ∧
    ((mkParser 1 false).parseBytes [0xE0 ||| 0, 0x00, 0x00]).2 = [.pitchBend (-8192) 1] := by
  refine ⟨?_, ?_, ?_⟩
  · rw [(C6_pitch_bend (mkParser 1 false) 0 0x00 0x40 (by decide) (by decide) (by decide)
      (Or.inr (by decide))).1]
    decide
  · rw [(C6_pitch_bend (mkParser 1 false) 0 0x7F 0x7F (by decide) (by decide) (by decide)
      (Or.inr (by decide))).1]
    decide
  · rw [(C6_pitch_bend (mkParser 1 false) 0 0x00 0x00 (by decide) (by decide) (by decide)
      (Or.inr (by decide))).1]
    decide

/-- Claim C9: a complete note-on message (status nibble 0x9) with velocity
data byte 0 on an accepted channel is delivered through the note-off
callback with velocity 0, and the note-on callback is not invoked. -/
theorem C9_velocity0_note_off (p : MidiParser) (c n : Nat) (hc : c < 16)
    (hn : n < 0x80) (hacc : p.omni_mode = true ∨ c + 1 = p.channel_filter) :
    (p.parseBytes [0x90 ||| c, n, 0]).2 = [.noteOff n 0 (c + 1)] := by
  have hor : (0x90 ||| c : Nat) = 0x90 + c := by
    have key : ∀ t, t < 16 → (0x90 ||| t : Nat) = 0x90 + t := by decide
    exact key c hc
  have hty : get_status_type (0x90 + c) = kNoteOnMask := by
    have key : ∀ t, t < 16 → get_status_type (0x90 + t) = kNoteOnMask := by decide
    exact key c hc
  have hch : get_status_channel (0x90 + c) = c := by
    have key : ∀ t, t < 16 → get_status_channel (0x90 + t) = t := by decide
    exact key c hc
  have hexp : get_expected_data_bytes (0x90 + c) = 2 := by
    have key : ∀ t, t < 16 → get_expected_data_bytes (0x90 + t) = 2 := by decide
    exact key c hc
  rw [hor, parse_cv_message p (0x90 + c) n 0 (by omega) (by omega) hexp hn (by omega)]
  rcases hacc with h | h <;>
    simp [MidiParser.process_message, MidiParser.should_process_channel, h, hty, hch,
      kNoteOnMask]

/-- Witness for claim C9: note-on velocity 0 at note 67 on channel 1
yields note-off(67, 0, 1). -/
theorem C9_velocity0_note_off_witness :
    ((mkParser 1 false).parseBytes [0x90 ||| 0, 67, 0]).2 = [.noteOff 67 0 1] :=
  C9_velocity0_note_off (mkParser 1 false) 0 67 (by decide) (by decide)
    (Or.inr (by decide))

/-- Two parsers with the same configuration reset to the same state. -/
theorem reset_eq_of_cfg (p q : MidiParser) (h1 : p.channel_filter = q.channel_filter)
    (h2 : p.omni_mode = q.omni_mode) : p.reset = q.reset := by
  cases p; cases q
  simp_all [MidiParser.reset]

/-- `process_message` only reads the current status, the two data slots
and the channel configuration. -/
theorem process_message_congr (p q : MidiParser)
    (h1 : p.current_status = q.current_status) (h2 : p.data0 = q.data0)
    (h3 : p.data1 = q.data1) (h4 : p.channel_filter = q.channel_filter)
    (h5 : p.omni_mode = q.omni_mode) : p.process_message = q.process_message := by
  unfold MidiParser.process_message MidiParser.should_process_channel
  rw [h1, h2, h3, h4, h5]

/-- A status byte drives any two equally-configured parsers into
`Bisim`-related states while emitting equal (empty) event lists. -/
theorem bisim_status_step (p q : MidiParser) (b : Nat)
    (hcf : p.channel_filter = q.channel_filter) (hom : p.omni_mode = q.omni_mode)
    (h1 : 0x80 ≤ b) (h2 : b < 0xF0) :
    (p.parse b).2 = (q.parse b).2 ∧ Bisim (p.parse b).1 (q.parse b).1 := by
  rcases get_expected_cases b with h0 | hb2
  · rw [parse_status_exp0 p b h1 h2 h0, parse_status_exp0 q b h1 h2 h0]
    exact ⟨rfl, hcf, hom, Or.inr (Or.inr ⟨rfl, rfl, rfl, rfl, by simp [h0], by simp⟩)⟩
  · rw [parse_status_exp2 p b h1 h2 hb2, parse_status_exp2 q b h1 h2 hb2]
    exact ⟨rfl, hcf, hom, Or.inr (Or.inr ⟨rfl, rfl, rfl, rfl, by simp [hb2], by simp⟩)⟩

/-- One parse step preserves `Bisim` and produces identical events. -/
theorem bisim_step (p q : MidiParser) (b : Nat) (h : Bisim p q) :
    (p.parse b).2 = (q.parse b).2 ∧ Bisim (p.parse b).1 (q.parse b).1 := by
  obtain ⟨hcf, hom, hcase⟩ := h
  rcases hcase with heq | hA | hBC
  · subst heq
    exact ⟨rfl, rfl, rfl, Or.inl rfl⟩
  · -- phase A: both Idle without running status
    obtain ⟨hp_st, hq_st, hp_rs, hq_rs⟩ := hA
    by_cases hrt : 0xF8 ≤ b
    · rw [parse_realtime p b hrt, parse_realtime q b hrt]
      exact ⟨rfl, hcf, hom, Or.inr (Or.inl ⟨hp_st, hq_st, hp_rs, hq_rs⟩)⟩
    · by_cases hsc : 0xF0 ≤ b
      · rw [parse_syscommon p b hsc (by omega), parse_syscommon q b hsc (by omega)]
        exact ⟨rfl, hcf, hom, Or.inl (reset_eq_of_cfg p q hcf hom)⟩
      · by_cases hst : 0x80 ≤ b
        · exact bisim_status_step p q b hcf hom hst (by omega)
        · rw [parse_data_idle_rs0 p b (by omega) hp_st hp_rs,
              parse_data_idle_rs0 q b (by omega) hq_st hq_rs]
          exact ⟨rfl, hcf, hom, Or.inr (Or.inl ⟨hp_st, hq_st, hp_rs, hq_rs⟩)⟩
  · -- phase BC: equal on state, running status, current status, expected count
    obtain ⟨hstq, hrsq, hcsq, hexpq, hexp1, hd0⟩ := hBC
    by_cases hrt : 0xF8 ≤ b
    · rw [parse_realtime p b hrt, parse_realtime q b hrt]
      exact ⟨rfl, hcf, hom, Or.inr (Or.inr ⟨hstq, hrsq, hcsq, hexpq, hexp1, hd0⟩)⟩
    · by_cases hsc : 0xF0 ≤ b
      · rw [parse_syscommon p b hsc (by omega), parse_syscommon q b hsc (by omega)]
        exact ⟨rfl, hcf, hom, Or.inl (reset_eq_of_cfg p q hcf hom)⟩
      · by_cases hst : 0x80 ≤ b
        · exact bisim_status_step p q b hcf hom hst (by omega)
        · -- data byte
          have hb : b < 0x80 := by omega
          cases hp : p.state with
          | Idle =>
            have hq_st : q.state = .Idle := by rw [← hstq, hp]
            by_cases hrs : p.running_status = 0
            · rw [parse_data_idle_rs0 p b hb hp hrs,
                  parse_data_idle_rs0 q b hb hq_st (by rw [← hrsq, hrs])]
              exact ⟨rfl, hcf, hom, Or.inr (Or.inr ⟨hstq, hrsq, hcsq, hexpq, hexp1, hd0⟩)⟩
            · rw [parse_data_idle_rs p b hb hp hrs,
                  parse_data_idle_rs q b hb hq_st (by rw [← hrsq]; exact hrs)]
              refine ⟨rfl, hcf, hom, Or.inr (Or.inr ⟨rfl, hrsq, ?_, ?_, ?_, ?_⟩)⟩
              · simp [hrsq]
              · simp [hrsq]
              · simp [get_expected_ne_one]
              · simp
          | AwaitData1 =>
            have hq_st : q.state = .AwaitData1 := by rw [← hstq, hp]
            rw [parse_data_await1 p b hb hp hexp1,
                parse_data_await1 q b hb hq_st (by rw [← hexpq]; exact hexp1)]
            exact ⟨rfl, hcf, hom, Or.inr (Or.inr ⟨rfl, hrsq, hcsq, hexpq, hexp1, by simp⟩)⟩
          | AwaitData2 =>
            have hq_st : q.state = .AwaitData2 := by rw [← hstq, hp]
            rw [parse_data_await2 p b hb hp, parse_data_await2 q b hb hq_st]
            refine ⟨?_, hcf, hom, Or.inr (Or.inr ⟨rfl, hrsq, hcsq, hexpq, hexp1, by simp [hp]⟩)⟩
            · exact process_message_congr _ _ (by simpa using hcsq)
                (by simpa using hd0 hp) (by simp) (by simpa using hcf)
                (by simpa using hom)

/-- Running any byte sequence from `Bisim`-related states yields identical
event traces and `Bisim`-related final states. -/
theorem bisim_run (bs : List Nat) (p q : MidiParser) (h : Bisim p q) :
    (p.parseBytes bs).2 = (q.parseBytes bs).2 ∧
    Bisim (p.parseBytes bs).1 (q.parseBytes bs).1 := by
  induction bs generalizing p q with
  | nil => exact ⟨rfl, h⟩
  | cons b rest ih =>
    obtain ⟨hev, hbs⟩ := bisim_step p q b h
    obtain ⟨hev2, hbs2⟩ := ih (p.parse b).1 (q.parse b).1 hbs
    simp only [MidiParser.parseBytes]
    exact ⟨by rw [hev, hev2], hbs2⟩

/-- Claim C10: a data byte fed in Idle with no running status invokes no
callback, and the parser afterwards behaves on every subsequent byte
sequence exactly as a freshly reset parser would. -/
theorem C10_idle_data_byte (p : MidiParser) (b : Nat) (bs : List Nat)
    (h1 : p.state = .Idle) (h2 : p.running_status = 0) (h3 : b < 0x80) :
    (p.parse b).2 = [] ∧
    ((p.parse b).1.parseBytes bs).2 = (p.reset.parseBytes bs).2 := by
  rw [parse_data_idle_rs0 p b h3 h1 h2]
  refine ⟨rfl, ?_⟩
  have hb : Bisim p p.reset :=
    ⟨rfl, rfl, Or.inr (Or.inl ⟨h1, rfl, h2, rfl⟩)⟩
  exact (bisim_run bs p p.reset hb).1

/-- Witness for claim C10: a parser with stale message state in Idle
absorbs a data byte silently and then tracks a reset parser on a
note-on message. -/
theorem C10_idle_data_byte_witness :
    let p : MidiParser :=
      { state := .Idle, running_status := 0, current_status := 0xB3,
        data0 := 9, data1 := 3, expected_data_bytes := 2,
        channel_filter := 1, omni_mode := false }
    (p.parse 5).2 = [] ∧
    ((p.parse 5).1.parseBytes [60, 0x90, 60, 100]).2 =
      (p.reset.parseBytes [60, 0x90, 60, 100]).2 :=
  C10_idle_data_byte _ 5 [60, 0x90, 60, 100] rfl rfl (by decide)

/-! ## Theorems: ring buffer -/

/-- Reduced form of `x % N` for `x < 2 * N`. -/
theorem mod_char (x N : Nat) (h0 : 0 < N) (h : x < 2 * N) :
    x % N = if N ≤ x then x - N else x := by
  rcases le_or_lt N x with hle | hlt
  · rw [if_pos hle, Nat.mod_eq_sub_mod hle, Nat.mod_eq_of_lt (by omega)]
  · rw [if_neg (by omega), Nat.mod_eq_of_lt hlt]

/-- `getD` after `set` at a different index. -/
theorem getD_set_ne {α : Type} (l : List α) (i j : Nat) (x d : α) (h : i ≠ j) :
    (l.set i x).getD j d = l.getD j d := by
  simp [List.getD_eq_getElem?_getD, List.getElem?_set_ne h]

/-- `getD` after `set` at the same (in-range) index. -/
theorem getD_set_self {α : Type} (l : List α) (i : Nat) (x d : α) (h : i < l.length) :
    (l.set i x).getD i d = x := by
  simp [List.getD_eq_getElem?_getD, List.getElem?_set_self, h]

/-- Closed form of the stored-byte count. -/
theorem RingBuffer.count_eq (rb : RingBuffer) (h : rb.WF) :
    rb.count = if rb.read_index ≤ rb.write_index
               then rb.write_index - rb.read_index
               else rb.write_index + rb.buffer_size - rb.read_index := by
  obtain ⟨hN, hr, hw, hl⟩ := h
  unfold RingBuffer.count
  rw [mod_char _ _ hN (by omega)]
  split_ifs <;> omega

/-- The stored-byte count is below the buffer size. -/
theorem RingBuffer.count_lt (rb : RingBuffer) (h : rb.WF) :
    rb.count < rb.buffer_size := by
  obtain ⟨hN, hr, hw, hl⟩ := h
  rw [rb.count_eq ⟨hN, hr, hw, hl⟩]
  split_ifs <;> omega

/-- The queue view has `count` elements. -/
theorem RingBuffer.length_queueOf (rb : RingBuffer) :
    rb.queueOf.length = rb.count := by
  simp [RingBuffer.queueOf]

/-- `write_byte` refines the bounded FIFO push with usable capacity
`buffer_size - 1`: identical success flag, queue view extended by the
byte exactly when accepted, wellformedness and size preserved. -/
theorem RingBuffer.write_byte_spec (rb : RingBuffer) (b : Nat) (h : rb.WF) :
    (rb.write_byte b).1 = (specPush (rb.buffer_size - 1) rb.queueOf b).1 ∧
    (rb.write_byte b).2.queueOf = (specPush (rb.buffer_size - 1) rb.queueOf b).2 ∧
    (rb.write_byte b).2.WF ∧ (rb.write_byte b).2.buffer_size = rb.buffer_size := by
  obtain ⟨hN, hr, hw, hl⟩ := h
  have hwf : rb.WF := ⟨hN, hr, hw, hl⟩
  have hcnt := rb.count_eq hwf
  have hclt := rb.count_lt hwf
  have hlen := rb.length_queueOf
  by_cases hfull : rb.is_full = true
  · have hfr : (rb.write_index + 1) % rb.buffer_size = rb.read_index := by
      simpa [RingBuffer.is_full] using hfull
    have hc : rb.count = rb.buffer_size - 1 := by
      rw [mod_char _ _ hN (by omega)] at hfr
      rw [hcnt]
      split_ifs at hfr ⊢ <;> omega
    have hwb : rb.write_byte b = (false, rb) := by
      unfold RingBuffer.write_byte
      rw [hfull]
      rfl
    have hsp : specPush (rb.buffer_size - 1) rb.queueOf b = (false, rb.queueOf) := by
      unfold specPush
      rw [if_neg (by omega)]
    rw [hwb, hsp]
    exact ⟨rfl, rfl, hwf, rfl⟩
  · have hff : rb.is_full = false := by
      revert hfull; cases rb.is_full <;> simp
    have hfr : (rb.write_index + 1) % rb.buffer_size ≠ rb.read_index := by
      simpa [RingBuffer.is_full] using hff
    have hc : rb.count < rb.buffer_size - 1 := by
      rcases Nat.lt_or_ge rb.count (rb.buffer_size - 1) with h1 | h1
      · exact h1
      · exfalso
        apply hfr
        rw [mod_char _ _ hN (by omega)]
        rw [hcnt] at h1 hclt
        split_ifs at h1 hclt ⊢ <;> omega
    have hwb : rb.write_byte b =
        (true, { rb with data_buffer := rb.data_buffer.set rb.write_index b,
                         write_index := if rb.buffer_size ≤ rb.write_index + 1 then 0
                                        else rb.write_index + 1 }) := by
      unfold RingBuffer.write_byte
      rw [hff]
      rfl
    have hsp : specPush (rb.buffer_size - 1) rb.queueOf b = (true, rb.queueOf ++ [b]) := by
      unfold specPush
      rw [if_pos (by omega)]
    have hc' : RingBuffer.count
        { rb with data_buffer := rb.data_buffer.set rb.write_index b,
                  write_index := if rb.buffer_size ≤ rb.write_index + 1 then 0
                                 else rb.write_index + 1 } = rb.count + 1 := by
      have hb1 : (if rb.buffer_size ≤ rb.write_index + 1 then 0
            else rb.write_index + 1) + rb.buffer_size - rb.read_index <
          2 * rb.buffer_size := by split_ifs <;> omega
      have hb2 : rb.write_index + rb.buffer_size - rb.read_index <
          2 * rb.buffer_size := by omega
      unfold RingBuffer.count
      dsimp only
      rw [mod_char ((if rb.buffer_size ≤ rb.write_index + 1 then 0
            else rb.write_index + 1) + rb.buffer_size - rb.read_index)
          rb.buffer_size hN hb1]
      rw [mod_char (rb.write_index + rb.buffer_size - rb.read_index)
          rb.buffer_size hN hb2]
      rw [hcnt] at hc
      split_ifs at hc ⊢ <;> omega
    rw [hwb, hsp]
    refine ⟨rfl, ?_, ⟨hN, hr, by dsimp only; split_ifs <;> omega,
      by simp [List.length_set, hl]⟩, rfl⟩
    unfold RingBuffer.queueOf
    dsimp only
    rw [hc', List.range_succ, List.map_append]
    congr 1
    · apply List.map_congr_left
      intro i hi
      have hi' : i < rb.count := List.mem_range.mp hi
      have hne : (rb.read_index + i) % rb.buffer_size ≠ rb.write_index := by
        rw [mod_char _ _ hN (by omega)]
        rw [hcnt] at hi'
        split_ifs at hi' ⊢ <;> omega
      exact getD_set_ne _ _ _ _ _ (fun hx => hne hx.symm)
    · have hwidx : (rb.read_index + rb.count) % rb.buffer_size = rb.write_index := by
        rw [mod_char _ _ hN (by omega)]
        rw [hcnt]
        split_ifs <;> omega
      simp only [List.map_cons, List.map_nil, hwidx]
      rw [getD_set_self _ _ _ _ (by omega)]

/-- `read_byte` refines the FIFO pop: it returns the oldest stored byte
(or `none` when empty) and the queue view loses its head. -/
theorem RingBuffer.read_byte_spec (rb : RingBuffer) (h : rb.WF) :
    rb.read_byte.1 = (specPop rb.queueOf).1 ∧
    rb.read_byte.2.queueOf = (specPop rb.queueOf).2 ∧
    rb.read_byte.2.WF ∧ rb.read_byte.2.buffer_size = rb.buffer_size := by
  obtain ⟨hN, hr, hw, hl⟩ := h
  have hwf : rb.WF := ⟨hN, hr, hw, hl⟩
  have hcnt := rb.count_eq hwf
  have hclt := rb.count_lt hwf
  by_cases hemp : rb.is_empty = true
  · have hre : rb.read_index = rb.write_index := by
      simpa [RingBuffer.is_empty] using hemp
    have hc0 : rb.count = 0 := by
      rw [hcnt]
      split_ifs <;> omega
    have hq : rb.queueOf = [] := by
      unfold RingBuffer.queueOf
      rw [hc0]
      rfl
    have hrb : rb.read_byte = (none, rb) := by
      unfold RingBuffer.read_byte
      rw [hemp]
      rfl
    rw [hrb, hq]
    exact ⟨rfl, rfl, hwf, rfl⟩
  · have hff : rb.is_empty = false := by
      revert hemp; cases rb.is_empty <;> simp
    have hrne : rb.read_index ≠ rb.write_index := by
      simpa [RingBuffer.is_empty] using hff
    have hc0 : rb.count ≠ 0 := by
      rw [hcnt]
      split_ifs <;> omega
    have hrb : rb.read_byte = (some (rb.data_buffer.getD rb.read_index 0),
        { rb with read_index := if rb.buffer_size ≤ rb.read_index + 1 then 0
                                else rb.read_index + 1 }) := by
      unfold RingBuffer.read_byte
      rw [hff]
      rfl
    obtain ⟨c, hcc⟩ : ∃ c, rb.count = c + 1 := ⟨rb.count - 1, by omega⟩
    have hc' : RingBuffer.count
        { rb with read_index := if rb.buffer_size ≤ rb.read_index + 1 then 0
                                else rb.read_index + 1 } = c := by
      have hb1 : rb.write_index + rb.buffer_size -
          (if rb.buffer_size ≤ rb.read_index + 1 then 0 else rb.read_index + 1) <
          2 * rb.buffer_size := by split_ifs <;> omega
      unfold RingBuffer.count
      dsimp only
      rw [mod_char (rb.write_index + rb.buffer_size -
            (if rb.buffer_size ≤ rb.read_index + 1 then 0 else rb.read_index + 1))
          rb.buffer_size hN hb1]
      rw [hcnt] at hcc
      split_ifs at hcc ⊢ <;> omega
    have hdec : rb.queueOf = rb.data_buffer.getD rb.read_index 0 ::
        RingBuffer.queueOf
          { rb with read_index := if rb.buffer_size ≤ rb.read_index + 1 then 0
                                  else rb.read_index + 1 } := by
      unfold RingBuffer.queueOf
      dsimp only
      rw [hc', hcc, List.range_succ_eq_map, List.map_cons, List.map_map]
      congr 1
      · rw [Nat.add_zero, Nat.mod_eq_of_lt hr]
      · apply List.map_congr_left
        intro i hi
        simp only [Function.comp]
        by_cases hNr : rb.buffer_size ≤ rb.read_index + 1
        · rw [if_pos hNr]
          rw [show rb.read_index + Nat.succ i = rb.buffer_size + i from by omega,
              Nat.add_mod_left, Nat.zero_add]
        · rw [if_neg hNr]
          rw [show rb.read_index + Nat.succ i = rb.read_index + 1 + i from by omega]
    rw [hrb, hdec]
    refine ⟨rfl, rfl, ⟨hN, by dsimp only; split_ifs <;> omega, hw, hl⟩, rfl⟩

/-- `is_empty` reports an empty queue view. -/
theorem RingBuffer.is_empty_iff (rb : RingBuffer) (h : rb.WF) :
    rb.is_empty = true ↔ rb.queueOf = [] := by
  obtain ⟨hN, hr, hw, hl⟩ := h
  have hcnt := rb.count_eq ⟨hN, hr, hw, hl⟩
  have hlen := rb.length_queueOf
  rw [show (rb.queueOf = []) ↔ (rb.queueOf.length = 0) from by
        simp [List.length_eq_zero]]
  rw [hlen, hcnt]
  unfold RingBuffer.is_empty
  simp only [beq_iff_eq]
  split_ifs <;> omega

/-- `is_full` reports a queue view holding `buffer_size - 1` bytes. -/
theorem RingBuffer.is_full_iff (rb : RingBuffer) (h : rb.WF) :
    rb.is_full = true ↔ rb.queueOf.length = rb.buffer_size - 1 := by
  obtain ⟨hN, hr, hw, hl⟩ := h
  have hcnt := rb.count_eq ⟨hN, hr, hw, hl⟩
  have hlen := rb.length_queueOf
  rw [hlen, hcnt]
  unfold RingBuffer.is_full
  simp only [beq_iff_eq]
  rw [mod_char (rb.write_index + 1) rb.buffer_size hN (by omega)]
  split_ifs <;> omega

/-- Claim C4: a wellformed ring buffer with backing storage of size N
behaves as a bounded FIFO of capacity N-1: `write_byte` refines the
bounded push (accepting exactly below N-1 stored bytes, dropping the byte
otherwise), `read_byte` refines the FIFO pop (bytes leave in write
order), `is_empty` and `is_full` report counts 0 and N-1; and with N = 4,
three writes succeed, a fourth fails, and after one read a write succeeds
again. -/
theorem C4_ring_buffer_bounded_fifo (rb : RingBuffer) (b : Nat) (h : rb.WF) :
    ((rb.write_byte b).1 = (specPush (rb.buffer_size - 1) rb.queueOf b).1 ∧
     (rb.write_byte b).2.queueOf = (specPush (rb.buffer_size - 1) rb.queueOf b).2 ∧
     (rb.write_byte b).2.WF) ∧
    (rb.read_byte.1 = (specPop rb.queueOf).1 ∧
     rb.read_byte.2.queueOf = (specPop rb.queueOf).2 ∧
     rb.read_byte.2.WF) ∧
    (rb.is_empty = true ↔ rb.queueOf = []) ∧
    (rb.is_full = true ↔ rb.queueOf.length = rb.buffer_size - 1) ∧
    (let s0 := RingBuffer.init (List.replicate 4 0) 4
     let r1 := s0.write_byte 1
     let r2 := r1.2.write_byte 2
     let r3 := r2.2.write_byte 3
     let r4 := r3.2.write_byte 4
     let r5 := r4.2.read_byte.2.write_byte 5
     r1.1 = true ∧ r2.1 = true ∧ r3.1 = true ∧ r4.1 = false ∧ r5.1 = true) := by
  obtain ⟨hw1, hw2, hw3, _⟩ := rb.write_byte_spec b h
  obtain ⟨hr1, hr2, hr3, _⟩ := rb.read_byte_spec h
  exact ⟨⟨hw1, hw2, hw3⟩, ⟨hr1, hr2, hr3⟩, rb.is_empty_iff h, rb.is_full_iff h,
    by decide⟩

/-- Witness for claim C4: pushing onto a buffer of size 4 holding one
byte appends it to the queue view. -/
theorem C4_ring_buffer_bounded_fifo_witness :
    let rb := (RingBuffer.init (List.replicate 4 0) 4).write_byte 7 |>.2
    (rb.write_byte 9).2.queueOf = (specPush (rb.buffer_size - 1) rb.queueOf 9).2 :=
  (C4_ring_buffer_bounded_fifo _ 9 (by unfold RingBuffer.WF; decide)).1.2.1

/-! ## Theorems: note stack helpers -/

/-- Lists of equal length agreeing under `getD` are equal. -/
theorem list_ext_getD (l1 l2 : List NV) (hlen : l1.length = l2.length)
    (h : ∀ i, i < l1.length → l1.getD i (255, 0) = l2.getD i (255, 0)) :
    l1 = l2 := by
  induction l1 generalizing l2 with
  | nil =>
    cases l2 with
    | nil => rfl
    | cons b t2 => simp at hlen
  | cons a t1 ih =>
    cases l2 with
    | nil => simp at hlen
    | cons b t2 =>
      have h0 := h 0 (by simp)
      simp only [List.getD_cons_zero] at h0
      have ht : t1 = t2 := by
        apply ih t2 (by simpa using hlen)
        intro i hi
        have := h (i + 1) (by simpa using Nat.succ_lt_succ hi)
        simpa [List.getD_cons_succ] using this
      rw [h0, ht]

/-- `getD` out of range yields the default. -/
theorem getD_oob (l : List NV) (n : Nat) (d : NV) (h : l.length ≤ n) :
    l.getD n d = d := by
  simp [List.getD_eq_getElem?_getD, List.getElem?_eq_none h]

/-- `getD` on `replicate` in range. -/
theorem getD_replicate (k m : Nat) (x d : NV) (h : m < k) :
    (List.replicate k x).getD m d = x := by
  simp [List.getD_eq_getElem?_getD, List.getElem?_replicate, h]

/-- `getD` before an erased index. -/
theorem getD_eraseIdx_lt (q : List NV) (j t : Nat) (d : NV) (h : t < j) :
    (q.eraseIdx j).getD t d = q.getD t d := by
  induction q generalizing j t with
  | nil => simp [List.eraseIdx]
  | cons a rest ih =>
    cases j with
    | zero => omega
    | succ j' =>
      cases t with
      | zero => simp [List.eraseIdx]
      | succ t' => simpa [List.eraseIdx, List.getD_cons_succ] using ih j' t' (by omega)

/-- `getD` at or after an erased index. -/
theorem getD_eraseIdx_ge (q : List NV) (j t : Nat) (d : NV) (h : j ≤ t) :
    (q.eraseIdx j).getD t d = q.getD (t + 1) d := by
  induction q generalizing j t with
  | nil => simp [List.eraseIdx]
  | cons a rest ih =>
    cases j with
    | zero => simp [List.eraseIdx, List.getD_cons_succ]
    | succ j' =>
      cases t with
      | zero => omega
      | succ t' => simpa [List.eraseIdx, List.getD_cons_succ] using ih j' t' (by omega)

/-- The compaction loop preserves the stack length. -/
theorem shift_go_aux_length (fuel : Nat) : ∀ (l : List NV) (i : Nat),
    (shift_go_aux fuel l i).length = l.length := by
  induction fuel with
  | zero => intro l i; rfl
  | succ f ih =>
    intro l i
    rw [shift_go_aux, ih]
    simp

/-- The compaction loop preserves the stack length. -/
theorem shift_go_length (l : List NV) (i stop : Nat) :
    (shift_go l i stop).length = l.length :=
  shift_go_aux_length (stop - i) l i

/-- Pointwise description of the iteration-counted compaction loop. -/
theorem shift_go_aux_getD (fuel : Nat) : ∀ (l : List NV) (i : Nat),
    i + fuel ≤ l.length → ∀ j,
    (shift_go_aux fuel l i).getD j (255, 0) =
      if i ≤ j ∧ j < i + fuel then l.getD (j + 1) (255, 0) else l.getD j (255, 0) := by
  induction fuel with
  | zero =>
    intro l i hstop j
    rw [shift_go_aux, if_neg (by omega)]
  | succ f ih =>
    intro l i hstop j
    rw [shift_go_aux, ih (l.set i (l.getD (i + 1) (255, 0))) (i + 1) (by simp; omega) j]
    by_cases hj : i + 1 ≤ j ∧ j < i + 1 + f
    · rw [if_pos hj, if_pos ⟨by omega, by omega⟩]
      exact getD_set_ne _ _ _ _ _ (by omega)
    · rw [if_neg hj]
      by_cases hj2 : i ≤ j ∧ j < i + (f + 1)
      · have hji : j = i := by omega
        subst hji
        rw [if_pos hj2]
        exact getD_set_self _ _ _ _ (by omega)
      · rw [if_neg hj2]
        exact getD_set_ne _ _ _ _ _ (by omega)

/-- Pointwise description of the compaction loop: inside `[i, stop)` every
slot receives its successor, all other slots are untouched. -/
theorem shift_go_getD (l : List NV) (i stop : Nat) (hstop : stop ≤ l.length)
    (j : Nat) :
    (shift_go l i stop).getD j (255, 0) =
      if i ≤ j ∧ j < stop then l.getD (j + 1) (255, 0) else l.getD j (255, 0) := by
  rcases le_or_lt i stop with hc | hc
  · have h := shift_go_aux_getD (stop - i) l i (by omega) j
    rw [show i + (stop - i) = stop from by omega] at h
    exact h
  · unfold shift_go
    rw [show stop - i = 0 from by omega, shift_go_aux, if_neg (by omega)]

/-- Scanning all-sentinel slots for a valid note fails. -/
theorem find_note_go_replicate (k i note : Nat) (h : note ≤ 127) :
    find_note_go (List.replicate k (255, 0)) note i = -1 := by
  cases k with
  | zero => rfl
  | succ k' =>
    rw [List.replicate_succ]
    unfold find_note_go
    rw [if_neg (by omega), if_pos rfl]

/-- Head-step equation for the index search, accumulator-free. -/
theorem findIdx?_cons_eq (p : NV → Bool) (a : NV) (l : List NV) :
    List.findIdx? p (a :: l) =
      if p a then some 0 else (List.findIdx? p l).map (· + 1) := by
  simp [List.findIdx?_cons]

/-- The scan over a valid held sequence padded by sentinels finds exactly
the first index holding the note. -/
theorem find_note_go_eq (q : List NV) (k i note : Nat) (hnote : note ≤ 127)
    (hq : ∀ nv ∈ q, nv.1 ≤ 127) :
    find_note_go (q ++ List.replicate k (255, 0)) note i =
      (match List.findIdx? (fun nv => nv.1 == note) q with
       | some j => ((i + j : Nat) : Int)
       | none => -1) := by
  induction q generalizing i with
  | nil => simpa using find_note_go_replicate k i note hnote
  | cons a rest ih =>
    have ha : a.1 ≤ 127 := hq a (by simp)
    have hrest : ∀ nv ∈ rest, nv.1 ≤ 127 := fun nv h2 => hq nv (by simp [h2])
    rw [List.cons_append]
    unfold find_note_go
    by_cases hh : a.1 = note
    · simp [findIdx?_cons_eq, hh]
    · rw [if_neg hh, if_neg (by omega), ih (i + 1) hrest, findIdx?_cons_eq]
      rw [if_neg (by simpa using hh)]
      cases hfi : List.findIdx? (fun nv => nv.1 == note) rest with
      | none => simp [hfi]
      | some j =>
        simp only [hfi, Option.map_some']
        congr 1
        omega

/-- A failing index search means the note is absent. -/
theorem findIdx?_none_iff (q : List NV) (n : Nat) :
    List.findIdx? (fun nv => nv.1 == n) q = none ↔ n ∉ q.map Prod.fst := by
  induction q with
  | nil => simp
  | cons a rest ih =>
    rw [findIdx?_cons_eq]
    by_cases h : a.1 = n
    · simp [h]
    · simp only [h, beq_iff_eq, if_false, Option.map_eq_none', ih, List.map_cons,
        List.mem_cons]
      constructor
      · intro h2 h3
        rcases h3 with h3 | h3
        · exact h (h3.symm)
        · exact h2 h3
      · intro h2 h3
        exact h2 (Or.inr h3)

/-- A successful index search is in range and points at the note. -/
theorem findIdx?_some_spec (q : List NV) (n j : Nat)
    (h : List.findIdx? (fun nv => nv.1 == n) q = some j) :
    j < q.length ∧ (q.getD j (255, 0)).1 = n := by
  induction q generalizing j with
  | nil => simp at h
  | cons a rest ih =>
    rw [findIdx?_cons_eq] at h
    by_cases hh : a.1 = n
    · rw [if_pos (by simpa using hh)] at h
      cases h
      simpa using hh
    · rw [if_neg (by simpa using hh)] at h
      rw [Option.map_eq_some'] at h
      obtain ⟨j', hj', hjj⟩ := h
      obtain ⟨hlt, hget⟩ := ih j' hj'
      subst hjj
      exact ⟨by simpa using Nat.succ_lt_succ hlt, by simpa [List.getD_cons_succ] using hget⟩

/-- `find_note` on a coupled state is the specification-level index
search. -/
theorem find_note_eq (s : MidiToCV) (q : List NV)
    (hstack : s.note_stack = q ++ List.replicate (kNoteStackSize - q.length) (255, 0))
    (hq : ∀ nv ∈ q, nv.1 ≤ 127) (note : Nat) (hnote : note ≤ 127) :
    s.find_note note =
      (match List.findIdx? (fun nv => nv.1 == note) q with
       | some j => (j : Int)
       | none => -1) := by
  unfold MidiToCV.find_note
  rw [hstack, find_note_go_eq q _ 0 note hnote hq]
  cases hfi : List.findIdx? (fun nv => nv.1 == note) q <;> simp [hfi]

/-- `find_note` on a coupled state fails exactly when the note is absent. -/
theorem find_note_eq_none (s : MidiToCV) (q : List NV)
    (hstack : s.note_stack = q ++ List.replicate (kNoteStackSize - q.length) (255, 0))
    (hq : ∀ nv ∈ q, nv.1 ≤ 127) (note : Nat) (hnote : note ≤ 127)
    (hfi : List.findIdx? (fun nv => nv.1 == note) q = none) :
    s.find_note note = -1 := by
  rw [find_note_eq s q hstack hq note hnote, hfi]

/-- `find_note` on a coupled state returns the index found by the
specification-level search. -/
theorem find_note_eq_some (s : MidiToCV) (q : List NV)
    (hstack : s.note_stack = q ++ List.replicate (kNoteStackSize - q.length) (255, 0))
    (hq : ∀ nv ∈ q, nv.1 ≤ 127) (note : Nat) (hnote : note ≤ 127) (j : Nat)
    (hfi : List.findIdx? (fun nv => nv.1 == note) q = some j) :
    s.find_note note = (j : Int) := by
  rw [find_note_eq s q hstack hq note hnote, hfi]

/-- `push_note` realizes the specification-level push and touches nothing
else. -/
theorem push_note_inv_core (s : MidiToCV) (q : List NV) (n v : Nat)
    (hcore : TrackerCore s q) (hn : n ≤ 127) :
    TrackerCore (s.push_note n v) (pushSpec q n v) ∧
    (s.push_note n v).last_note = s.last_note ∧
    (s.push_note n v).gate_on = s.gate_on ∧
    (s.push_note n v).cv_enabled = s.cv_enabled ∧
    q.length ≤ (pushSpec q n v).length := by
  obtain ⟨hstack, hsz, hle, hvalid, hnodup⟩ := hcore
  have hK : kNoteStackSize = 25 := rfl
  unfold MidiToCV.push_note pushSpec
  by_cases hmem : n ∈ q.map Prod.fst
  · have hne : s.find_note n ≠ -1 := by
      cases hfi : List.findIdx? (fun nv => nv.1 == n) q with
      | none => exact absurd hmem ((findIdx?_none_iff q n).mp hfi)
      | some j =>
        rw [find_note_eq_some s q hstack hvalid n hn j hfi]
        omega
    rw [if_pos hne, if_pos hmem]
    exact ⟨⟨hstack, hsz, hle, hvalid, hnodup⟩, rfl, rfl, rfl, le_refl _⟩
  · have heq : s.find_note n = -1 :=
      find_note_eq_none s q hstack hvalid n hn ((findIdx?_none_iff q n).mpr hmem)
    rw [if_neg (by simp [heq]), if_neg hmem]
    by_cases hcap : s.current_stack_size < kNoteStackSize
    · rw [if_pos hcap, if_pos (hsz ▸ hcap)]
      have hstack_len : s.note_stack.length = 25 := by
        rw [hstack]
        simp only [List.length_append, List.length_replicate]
        omega
      refine ⟨⟨?_, by simp [hsz], by simp; omega, ?_, ?_⟩, rfl, rfl, rfl, by simp⟩
      · apply list_ext_getD
        · simp only [List.length_set, hstack_len, List.length_append,
            List.length_replicate, List.length_cons, List.length_nil]
          omega
        · intro i hi
          rw [List.length_set, hstack_len] at hi
          by_cases hieq : i = s.current_stack_size
          · subst hieq
            rw [getD_set_self _ _ _ _ (by omega)]
            rw [List.getD_append _ _ _ _ (by simp; omega)]
            rw [List.getD_append_right _ _ _ _ (by omega)]
            rw [hsz]
            simp
          · rw [getD_set_ne _ _ _ _ _ (fun hx => hieq hx.symm), hstack]
            by_cases hilt : i < q.length
            · rw [List.getD_append _ _ _ _ (by omega)]
              rw [List.getD_append _ _ _ _ (by simp; omega)]
              rw [List.getD_append _ _ _ _ (by omega)]
            · rw [List.getD_append_right _ _ _ _ (by omega)]
              rw [getD_replicate _ _ _ _ (by omega)]
              rw [List.getD_append_right _ _ _ _ (by simp; omega)]
              rw [getD_replicate _ _ _ _ (by simp; omega)]
      · intro nv hmem2
        rcases List.mem_append.mp hmem2 with h2 | h2
        · exact hvalid nv h2
        · simp at h2
          rw [h2]
          exact hn
      · rw [List.map_append]
        simp only [List.map_cons, List.map_nil]
        rw [List.nodup_append]
        exact ⟨hnodup, List.nodup_singleton n,
          fun a ha hb => by simp at hb; subst hb; exact hmem ha⟩
    · rw [if_neg hcap, if_neg (by omega)]
      exact ⟨⟨hstack, hsz, hle, hvalid, hnodup⟩, rfl, rfl, rfl, le_refl _⟩

/-- `pop_note` realizes the specification-level removal (shift-compaction
preserving order of the remaining notes) and touches nothing else. -/
theorem pop_note_inv_core (s : MidiToCV) (q : List NV) (n : Nat)
    (hcore : TrackerCore s q) (hn : n ≤ 127) :
    TrackerCore (s.pop_note n) (specNoteOff q n) ∧
    (s.pop_note n).last_note = s.last_note ∧
    (s.pop_note n).gate_on = s.gate_on ∧
    (s.pop_note n).cv_enabled = s.cv_enabled ∧
    (specNoteOff q n).length ≤ q.length := by
  obtain ⟨hstack, hsz, hle, hvalid, hnodup⟩ := hcore
  have hK : kNoteStackSize = 25 := rfl
  have hle25 : q.length ≤ 25 := by omega
  have hstack_len : s.note_stack.length = 25 := by
    rw [hstack]
    simp only [List.length_append, List.length_replicate]
    omega
  unfold specNoteOff
  cases hfi : List.findIdx? (fun nv => nv.1 == n) q with
  | none =>
    have heq : s.find_note n = -1 := find_note_eq_none s q hstack hvalid n hn hfi
    simp only [MidiToCV.pop_note, heq, if_pos rfl]
    exact ⟨⟨hstack, hsz, hle, hvalid, hnodup⟩, rfl, rfl, rfl, le_refl _⟩
  | some j =>
    have heq : s.find_note n = (j : Int) := find_note_eq_some s q hstack hvalid n hn j hfi
    obtain ⟨hjlt, hjget⟩ := findIdx?_some_spec q n j hfi
    have hlen_erase : (q.eraseIdx j).length = q.length - 1 := by
      have := List.length_eraseIdx_add_one hjlt
      omega
    simp only [MidiToCV.pop_note, heq]
    rw [if_neg (by omega)]
    have htoNat : ((j : Int)).toNat = j := by simp
    rw [htoNat]
    have hmain : (shift_go s.note_stack j (s.current_stack_size - 1)).set
        (s.current_stack_size - 1) (255, 0) =
        q.eraseIdx j ++ List.replicate (kNoteStackSize - (q.eraseIdx j).length) (255, 0) := by
      apply list_ext_getD
      · simp only [List.length_set, shift_go_length, hstack_len, List.length_append,
          List.length_replicate, hlen_erase]
        omega
      · intro i hi
        rw [List.length_set, shift_go_length, hstack_len] at hi
        by_cases hitop : i = s.current_stack_size - 1
        · subst hitop
          rw [getD_set_self _ _ _ _ (by rw [shift_go_length, hstack_len]; omega)]
          rw [List.getD_append_right _ _ _ _ (by omega)]
          rw [getD_replicate _ _ _ _ (by omega)]
        · rw [getD_set_ne _ _ _ _ _ (fun hx => hitop hx.symm)]
          rw [shift_go_getD _ _ _ (by rw [hstack_len]; omega)]
          by_cases hreg : j ≤ i ∧ i < s.current_stack_size - 1
          · rw [if_pos hreg]
            rw [hstack, List.getD_append _ _ _ _ (by omega)]
            rw [List.getD_append _ _ _ _ (by omega)]
            rw [getD_eraseIdx_ge _ _ _ _ hreg.1]
          · rw [if_neg hreg]
            by_cases hlt : i < s.current_stack_size - 1
            · have hij : i < j := by omega
              rw [hstack, List.getD_append _ _ _ _ (by omega)]
              rw [List.getD_append _ _ _ _ (by omega)]
              rw [getD_eraseIdx_lt _ _ _ _ hij]
            · have hge : s.current_stack_size ≤ i := by omega
              rw [hstack, List.getD_append_right _ _ _ _ (by omega)]
              rw [getD_replicate _ _ _ _ (by omega)]
              rw [List.getD_append_right _ _ _ _ (by omega)]
              rw [getD_replicate _ _ _ _ (by omega)]
    refine ⟨⟨hmain, by simp [hsz, hlen_erase], by simp [hlen_erase]; omega, ?_, ?_⟩,
      rfl, rfl, rfl, by omega⟩
    · intro nv hmem2
      exact hvalid nv ((List.eraseIdx_sublist q j).subset hmem2)
    · exact List.Nodup.sublist ((List.eraseIdx_sublist q j).map Prod.fst) hnodup

/-- `set_cv` latches the top of a non-empty stack in `last_note_` and is
the identity otherwise; it changes nothing else. -/
theorem set_cv_inv (s : MidiToCV) (q : List NV) (hcore : TrackerCore s q) :
    TrackerCore s.set_cv q ∧
    (q = [] → s.set_cv = s) ∧
    (q ≠ [] → s.set_cv.last_note = q.getD (q.length - 1) (255, 0)) ∧
    s.set_cv.gate_on = s.gate_on ∧
    s.set_cv.cv_enabled = s.cv_enabled ∧
    s.set_cv.current_stack_size = s.current_stack_size ∧
    (q = [] → s.set_cv.last_note = s.last_note) := by
  obtain ⟨hstack, hsz, hle, hvalid, hnodup⟩ := hcore
  unfold MidiToCV.set_cv
  by_cases h : 0 < s.current_stack_size
  · have hq : q ≠ [] := by
      intro he
      rw [hsz, he] at h
      simp at h
    rw [if_pos h]
    refine ⟨⟨hstack, hsz, hle, hvalid, hnodup⟩, fun he => absurd he hq, ?_, rfl, rfl,
      rfl, fun he => absurd he hq⟩
    intro _
    rw [hstack, hsz, List.getD_append _ _ _ _ (by
      have : q ≠ [] := hq
      have : 0 < q.length := List.length_pos.mpr hq
      omega)]
  · rw [if_neg h]
    have hq : q = [] := by
      rw [hsz] at h
      have := Nat.eq_zero_of_not_pos h
      exact List.length_eq_zero.mp this
    exact ⟨⟨hstack, hsz, hle, hvalid, hnodup⟩, fun _ => rfl, fun he => absurd hq he,
      rfl, rfl, rfl, fun _ => rfl⟩

/-- `note_off` preserves the coupling invariant against the
specification-level removal; moreover, if it empties the held sequence
the sounding note is unchanged (the latch holds the note that was
sounding). -/
theorem note_off_inv (s : MidiToCV) (q : List NV) (n v : Nat)
    (hinv : TrackerInv s q) (hn : n ≤ 127) :
    TrackerInv (s.note_off n v) (specNoteOff q n) ∧
    ((s.note_off n v).current_stack_size = 0 →
      (s.note_off n v).sounding_note = s.sounding_note) := by
  obtain ⟨hcore, hgate, hcv, hlatch⟩ := hinv
  obtain ⟨hcore1, hl1, hg1, hc1, hlen1⟩ := pop_note_inv_core s q n hcore hn
  obtain ⟨hcore2, hid2, htop2, hg2, hc2, hs2, hl2⟩ :=
    set_cv_inv (s.pop_note n) (specNoteOff q n) hcore1
  have hcv1 : (s.pop_note n).cv_enabled = true := by rw [hc1, hcv]
  have hbody : s.note_off n v =
      (if ((s.pop_note n).set_cv).current_stack_size = 0
       then { (s.pop_note n).set_cv with gate_on := false }
       else (s.pop_note n).set_cv) := by
    simp only [MidiToCV.note_off, hcv1, if_true]
  by_cases hz : ((s.pop_note n).set_cv).current_stack_size = 0
  · have hq' : specNoteOff q n = [] := by
      rw [hs2, hcore1.2.1] at hz
      exact List.length_eq_zero.mp hz
    rw [hbody, if_pos hz]
    constructor
    · refine ⟨⟨hcore2.1, hcore2.2.1, hcore2.2.2.1, hcore2.2.2.2.1, hcore2.2.2.2.2⟩,
        ?_, ?_, ?_⟩
      · rw [hq']
        simp
      · exact hc2.trans hcv1
      · intro hne
        exact absurd hq' hne
    · intro _
      have hlast : ((s.pop_note n).set_cv).last_note = s.last_note := by
        rw [hl2 hq', hl1]
      unfold MidiToCV.sounding_note
      dsimp only
      rw [if_neg (by omega)]
      rw [hlast]
      by_cases hqnil : q = []
      · have hsz0 : s.current_stack_size = 0 := by rw [hcore.2.1, hqnil]; rfl
        rw [if_neg (by omega)]
      · have hszpos : 0 < s.current_stack_size := by
          rw [hcore.2.1]
          exact List.length_pos.mpr hqnil
        rw [if_pos hszpos]
        rw [hcore.1, hcore.2.1, List.getD_append _ _ _ _ (by
          have : 0 < q.length := List.length_pos.mpr hqnil
          omega)]
        rw [hlatch hqnil]
  · rw [hbody, if_neg hz]
    have hq' : specNoteOff q n ≠ [] := by
      intro he
      rw [hs2, hcore1.2.1, he] at hz
      simp at hz
    constructor
    · refine ⟨⟨hcore2.1, hcore2.2.1, hcore2.2.2.1, hcore2.2.2.2.1, hcore2.2.2.2.2⟩,
        ?_, hc2.trans hcv1, fun _ => htop2 hq'⟩
      rw [hg2, hg1, hgate]
      have h1 : 0 < (specNoteOff q n).length := List.length_pos.mpr hq'
      have h2 : 0 < q.length := by omega
      simp [h1, h2]
    · intro hz2
      exact absurd hz2 hz

/-- `note_on` preserves the coupling invariant against the
specification-level note-on. -/
theorem note_on_inv (s : MidiToCV) (q : List NV) (n v : Nat)
    (hinv : TrackerInv s q) (hn : n ≤ 127) :
    TrackerInv (s.note_on n v) (specNoteOn q n v) := by
  obtain ⟨hcore, hgate, hcv, hlatch⟩ := hinv
  unfold MidiToCV.note_on specNoteOn
  by_cases hv : v = 0
  · rw [if_pos hv, if_pos hv]
    exact (note_off_inv s q n v ⟨hcore, hgate, hcv, hlatch⟩ hn).1
  · rw [if_neg hv, if_neg hv]
    obtain ⟨hcore1, hl1, hg1, hc1, hlen1⟩ := push_note_inv_core s q n v hcore hn
    obtain ⟨hcore2, hid2, htop2, hg2, hc2, hs2, hl2⟩ :=
      set_cv_inv (s.push_note n v) (pushSpec q n v) hcore1
    have hcv1 : (s.push_note n v).cv_enabled = true := by rw [hc1, hcv]
    have hpos : 0 < (pushSpec q n v).length := by
      unfold pushSpec
      split_ifs with h1 h2
      · cases q with
        | nil => simp at h1
        | cons a t => simp
      · simp
      · have hK : kNoteStackSize = 25 := rfl
        omega
    have hq' : pushSpec q n v ≠ [] := by
      intro he
      rw [he] at hpos
      simp at hpos
    simp only [hcv1, if_true]
    refine ⟨⟨hcore2.1, hcore2.2.1, hcore2.2.2.1, hcore2.2.2.2.1, hcore2.2.2.2.2⟩,
      ?_, hc2.trans hcv1, fun _ => htop2 hq'⟩
    simp [hpos]

/-- The initialized converter is coupled to the empty held sequence. -/
theorem initMidiToCV_inv : TrackerInv initMidiToCV [] := by
  refine ⟨⟨rfl, rfl, by simp [kNoteStackSize], by simp, by simp⟩, rfl, rfl, ?_⟩
  intro h
  exact absurd rfl h

/-- Folding wellformed events preserves the coupling invariant. -/
theorem foldl_inv (es : List NoteEv) : ∀ s q, TrackerInv s q →
    (∀ e ∈ es, e.evNote ≤ 127) →
    TrackerInv (es.foldl stepEv s) (es.foldl specStep q) := by
  induction es with
  | nil => exact fun s q h _ => h
  | cons e rest ih =>
    intro s q h hwf
    simp only [List.foldl_cons]
    apply ih
    · cases e with
      | noteOn n v2 =>
        exact note_on_inv s q n v2 h (by simpa using hwf (.noteOn n v2) (by simp))
      | noteOff n v2 =>
        exact (note_off_inv s q n v2 h (by simpa using hwf (.noteOff n v2) (by simp))).1
    · intro e2 he2
      exact hwf e2 (by simp [he2])

/-- Running wellformed events from initialization lands in a state coupled
to the specification-level held sequence. -/
theorem runEvents_inv (es : List NoteEv) (h : wfEvents es) :
    TrackerInv (runEvents es) (heldSpec es) :=
  foldl_inv es initMidiToCV [] initMidiToCV_inv h

/-- Counterexample to claim C3 as stated: after holding and releasing note
60 the latched sounding note is 60; an explicit `reset_note_stack` empties
the held notes but does NOT clear the latched value to the defined default
`kZeroCVMidiNote` — the sounding note is still 60, not 24. -/
theorem C3_reset_keeps_latch_counterexample :
    ((runEvents [.noteOn 60 100, .noteOff 60 0]).reset_note_stack).sounding_note = 60 ∧
    ((runEvents [.noteOn 60 100, .noteOff 60 0]).reset_note_stack).held_count = 0 ∧
    initMidiToCV.sounding_note = kZeroCVMidiNote ∧
    (60 : Nat) ≠ kZeroCVMidiNote := by decide

/-- Claim C3 (amended): while at least one note is held the sounding note
is the most recently added held note (the last entry of the
specification-level held sequence); a note-off that empties the held
sequence leaves the sounding note latched at its previous value; an
explicit reset of the note stack clears the held notes but leaves the
latched value unchanged (only re-initialization restores the default);
and the pinned 60/64 example behaves as stated. -/
theorem C3_last_note_priority_latched :
    (∀ es, wfEvents es → 0 < (runEvents es).held_count →
      (runEvents es).sounding_note =
        ((heldSpec es).getD ((heldSpec es).length - 1) (255, 0)).1) ∧
    (∀ es n v, wfEvents es → n ≤ 127 →
      ((runEvents es).note_off n v).held_count = 0 →
      ((runEvents es).note_off n v).sounding_note = (runEvents es).sounding_note) ∧
    (∀ s : MidiToCV, (s.reset_note_stack).held_count = 0 ∧
      (s.reset_note_stack).last_note = s.last_note ∧
      (s.reset_note_stack).sounding_note = s.last_note.1) ∧
    ((runEvents [.noteOn 60 100, .noteOn 64 100]).sounding_note = 64 ∧
     (runEvents [.noteOn 60 100, .noteOn 64 100, .noteOff 64 0]).sounding_note = 60 ∧
     (runEvents [.noteOn 60 100, .noteOn 64 100, .noteOff 64 0,
        .noteOff 60 0]).held_count = 0 ∧
     (runEvents [.noteOn 60 100, .noteOn 64 100, .noteOff 64 0,
        .noteOff 60 0]).sounding_note = 60) := by
  refine ⟨?_, ?_, ?_, by decide⟩
  · intro es hwf hpos
    obtain ⟨⟨hstack, hsz, hle, hvalid, hnodup⟩, hgate, hcv, hlatch⟩ := runEvents_inv es hwf
    unfold MidiToCV.held_count at hpos
    unfold MidiToCV.sounding_note
    rw [if_pos hpos, hstack, hsz]
    rw [List.getD_append _ _ _ _ (by rw [hsz] at hpos; omega)]
  · intro es n v hwf hn
    exact (note_off_inv (runEvents es) (heldSpec es) n v (runEvents_inv es hwf) hn).2
  · intro s
    refine ⟨rfl, rfl, ?_⟩
    unfold MidiToCV.sounding_note MidiToCV.reset_note_stack
    simp

/-- Witness for (amended) claim C3: with 72 then 60 held, the sounding
note is the last entry of the specification-level held sequence. -/
theorem C3_last_note_priority_latched_witness :
    (runEvents [.noteOn 72 10, .noteOn 60 100]).sounding_note =
      ((heldSpec [.noteOn 72 10, .noteOn 60 100]).getD
        ((heldSpec [.noteOn 72 10, .noteOn 60 100]).length - 1) (255, 0)).1 :=
  C3_last_note_priority_latched.1 [.noteOn 72 10, .noteOn 60 100]
    (by unfold wfEvents; decide) (by decide)

/-- Claim C7: `push_note` is a no-op when the note is already held,
appends the note as the last held entry when fewer than 25 notes are held,
and silently drops it (state unchanged) at capacity; pushing 26 distinct
notes leaves the 26th absent and the held count at 25. -/
theorem C7_note_on_capacity :
    (∀ (s : MidiToCV) (q : List NV) (note vel : Nat), TrackerInv s q → note ≤ 127 →
      ((note ∈ q.map Prod.fst → s.push_note note vel = s) ∧
       (note ∉ q.map Prod.fst → q.length < kNoteStackSize →
         (s.push_note note vel).note_stack =
           (q ++ [(note, vel)]) ++
             List.replicate (kNoteStackSize - (q.length + 1)) (255, 0) ∧
         (s.push_note note vel).held_count = q.length + 1) ∧
       (note ∉ q.map Prod.fst → q.length = kNoteStackSize →
         s.push_note note vel = s))) ∧
    ((List.range 26).foldl (fun s n => s.push_note n 100) initMidiToCV).held_count = 25 ∧
    ((List.range 26).foldl (fun s n => s.push_note n 100) initMidiToCV).find_note 25 = -1 := by
  refine ⟨?_, by decide, by decide⟩
  intro s q note vel hinv hn
  obtain ⟨⟨hstack, hsz, hle, hvalid, hnodup⟩, hgate, hcv, hlatch⟩ := hinv
  refine ⟨?_, ?_, ?_⟩
  · intro hmem
    have hne : s.find_note note ≠ -1 := by
      cases hfi : List.findIdx? (fun nv => nv.1 == note) q with
      | none => exact absurd hmem ((findIdx?_none_iff q note).mp hfi)
      | some j =>
        rw [find_note_eq_some s q hstack hvalid note hn j hfi]
        omega
    unfold MidiToCV.push_note
    rw [if_pos hne]
  · intro hmem hroom
    obtain ⟨hcore1, _, _, _, _⟩ :=
      push_note_inv_core s q note vel ⟨hstack, hsz, hle, hvalid, hnodup⟩ hn
    have hps : pushSpec q note vel = q ++ [(note, vel)] := by
      unfold pushSpec
      rw [if_neg hmem, if_pos hroom]
    rw [hps] at hcore1
    refine ⟨?_, ?_⟩
    · have := hcore1.1
      simpa using this
    · have := hcore1.2.1
      unfold MidiToCV.held_count
      simpa using this
  · intro hmem hfull
    have heq : s.find_note note = -1 :=
      find_note_eq_none s q hstack hvalid note hn ((findIdx?_none_iff q note).mpr hmem)
    unfold MidiToCV.push_note
    rw [if_neg (by simp [heq]), if_neg (by omega)]

/-- Witness for claim C7: pushing note 60 onto the freshly initialized
(empty) tracker appends it as the only held entry. -/
theorem C7_note_on_capacity_witness :
    (initMidiToCV.push_note 60 100).note_stack =
      (([] : List NV) ++ [(60, 100)]) ++
        List.replicate (kNoteStackSize - (([] : List NV).length + 1)) (255, 0) ∧
    (initMidiToCV.push_note 60 100).held_count = ([] : List NV).length + 1 :=
  ((C7_note_on_capacity.1 initMidiToCV [] 60 100 initMidiToCV_inv
    (by decide)).2.1 (by decide) (by decide))

/-- Claim C8: in every state reachable from initialization by wellformed
note events the gate is on exactly when the held count is positive, and a
note-off for an absent note leaves the gate unchanged. -/
theorem C8_gate_iff_held (es : List NoteEv) (h : wfEvents es) :
    ((runEvents es).gate_on = true ↔ 0 < (runEvents es).held_count) ∧
    (∀ n v, n ≤ 127 → n ∉ (heldSpec es).map Prod.fst →
      ((runEvents es).note_off n v).gate_on = (runEvents es).gate_on) := by
  obtain ⟨⟨hstack, hsz, hle, hvalid, hnodup⟩, hgate, hcv, hlatch⟩ := runEvents_inv es h
  constructor
  · unfold MidiToCV.held_count
    rw [hgate, hsz]
    simp
  · intro n v hn habs
    have hinv : TrackerInv (runEvents es) (heldSpec es) := runEvents_inv es h
    have hoff := (note_off_inv (runEvents es) (heldSpec es) n v hinv hn).1
    have hsoff : specNoteOff (heldSpec es) n = heldSpec es := by
      unfold specNoteOff
      rw [(findIdx?_none_iff (heldSpec es) n).mpr habs]
    rw [hoff.2.1, hsoff, hgate]

/-- Witness for claim C8: after a single note-on the gate is on iff the
held count is positive. -/
theorem C8_gate_iff_held_witness :
    ((runEvents [.noteOn 60 100]).gate_on = true ↔
      0 < (runEvents [.noteOn 60 100]).held_count) :=
  (C8_gate_iff_held [.noteOn 60 100] (by unfold wfEvents; decide)).1
end BrainSdk
